import Mathlib

/-!
# Verification of the RAG prototype core

Shallow embedding of the retrieval-and-orchestration core of the RAG
prototype: the vector-store search post-processing
(`backend/app/core/vector_store.py`), the two text-chunking strategies
(`backend/app/services/chunking.py`), the prompt-context formatter
(`backend/app/core/rag_pipeline.py`), and the keyword-coverage metric of
batch evaluation (`backend/app/services/evaluation.py`).

Python strings are modelled as `String`/`List Char`, Python `int` as `ℤ`
(or `ℕ` where the source value is a count), Python `float` as `ℚ` (exact
rational arithmetic standing in for IEEE doubles).  The external ChromaDB
index is modelled as an oracle function handed to `search`.
-/

namespace RAG

/-! ## Vector store search (`VectorStore.search`, vector_store.py)

The surrounding ChromaDB client is external; `search` receives the index
as an oracle `queryIndex : Option WhereFilter → ℕ → List RawResult`
standing for `self.collection.query(query_embeddings, n_results, where)`.
The query embedding itself is opaque to the post-processing being
verified, so it is folded into the oracle. -/

/-- One raw nearest-neighbour candidate, as delivered by the index: the
parallel entries of `results["ids"][0]`, `results["documents"][0]`,
`results["distances"][0]` and `results["metadatas"][0]` at one position. -/
structure RawResult where
  id : String
  document : String
  distance : ℚ
  metadata_dataset_id : String
deriving DecidableEq

/-- The `where` filter built by `VectorStore.search`: either
`{"dataset_id": ds}` or `{"dataset_id": {"$in": [...]}}`. -/
inductive WhereFilter where
  | eq (dataset_id : String)
  | isin (dataset_ids : List String)
deriving DecidableEq

/-- One entry of the list returned by `VectorStore.search`
(the `documents.append({...})` dictionaries); the `metadata` field is
carried through unchanged by the source and is omitted here. -/
structure SearchDoc where
  text : String
  score : ℚ
  id : String
deriving DecidableEq

/-- `similarity = 1 - (distance**2 / 2)` (vector_store.py line 130). -/
def similarity (distance : ℚ) : ℚ := 1 - distance ^ 2 / 2

/-- The `where_filter` construction of `VectorStore.search` (lines
107-113): `None` when no scope is given (or, unreachably, when the scope
is empty), an equality filter for a single dataset id, an `$in` filter
for several. -/
def buildWhereFilter (enabled_datasets : Option (List String)) :
    Option WhereFilter :=
  match enabled_datasets with
  | none => none
  | some ds =>
    if ds.length = 0 then none
    else if ds.length = 1 then some (WhereFilter.eq ds.head!)
    else some (WhereFilter.isin ds)

/-- The result-processing loop of `VectorStore.search` (lines 122-143):
convert each distance to a similarity, drop candidates strictly below
`min_score`, keep index order. -/
def processResults (raw : List RawResult) (min_score : ℚ) : List SearchDoc :=
  raw.filterMap fun r =>
    let sim := similarity r.distance
    if sim < min_score then none
    else some { text := r.document, score := sim, id := r.id }

/-- `VectorStore.search` (vector_store.py lines 83-146).  An explicitly
empty dataset list short-circuits to `[]` before the index is consulted;
otherwise the index oracle is queried with the built filter and `top_k`,
and the raw results are post-processed. -/
def search (queryIndex : Option WhereFilter → ℕ → List RawResult)
    (top_k : ℕ) (enabled_datasets : Option (List String)) (min_score : ℚ) :
    List SearchDoc :=
  if enabled_datasets = some [] then []
  else processResults (queryIndex (buildWhereFilter enabled_datasets) top_k) min_score

/-! ## Keyword coverage (`EvaluationService.evaluate_batch`, evaluation.py) -/

/-- Python `str.lower()` restricted to the ASCII range (the source data
in the verified scenarios is ASCII). -/
def pyLower (s : List Char) : List Char := s.map Char.toLower

/-- `keywords_found = [kw for kw in expected_keywords if kw.lower() in answer]`
with `answer = response["answer"].lower()` (evaluation.py lines 106-107);
Python `in` on strings is the substring test. -/
def keywordsFound (answer : String) (expected_keywords : List String) :
    List String :=
  let answerLower := pyLower answer.data
  expected_keywords.filter fun kw => decide (pyLower kw.data <:+: answerLower)

/-- `keyword_coverage = len(keywords_found) / len(expected_keywords) if
expected_keywords else 0.0` (evaluation.py lines 110-114). -/
def keyword_coverage (answer : String) (expected_keywords : List String) : ℚ :=
  if expected_keywords.isEmpty then 0
  else (keywordsFound answer expected_keywords).length / expected_keywords.length

/-! ## Context formatting (`RAGPipeline._format_context`, rag_pipeline.py) -/

/-- One retrieved chunk as consumed by `_format_context`: `chunk["text"]`,
`chunk["metadata"].get("source_title", "Unknown")` and
`chunk.get("score", 0.0)`; the `Option` fields model the dictionary
lookups with defaults. -/
structure RetChunk where
  text : String
  source_title : Option String
  score : Option ℚ
deriving DecidableEq

/-- Python `f"{q:.2f}"` on our rational model of floats: round to two
decimal places (ties rounded half-up here; CPython resolves exact ties on
the underlying binary double, which no verified scenario exercises). -/
def format2 (q : ℚ) : String :=
  let c : ℤ := round (q * 100)
  let sign := if c < 0 then "-" else ""
  let n := c.natAbs
  let frac := n % 100
  sign ++ toString (n / 100) ++ "."
    ++ (if frac < 10 then "0" ++ toString frac else toString frac)

/-- The per-chunk block
`f"[Source {i}: {source} (relevance: {score:.2f})]\n{text}"`
(rag_pipeline.py line 220). -/
def sourceBlock (rank : ℕ) (chunk : RetChunk) : String :=
  "[Source " ++ toString rank ++ ": " ++ chunk.source_title.getD "Unknown"
    ++ " (relevance: " ++ format2 (chunk.score.getD 0) ++ ")]\n" ++ chunk.text

/-- `RAGPipeline._format_context` (rag_pipeline.py lines 201-222): the
sentinel for no chunks, otherwise the blocks for `enumerate(chunks, 1)`
joined by `"\n\n"`. -/
def format_context (chunks : List RetChunk) : String :=
  if chunks.isEmpty then "No relevant context found."
  else
    let formatted := chunks.enum.map fun p => sourceBlock (p.1 + 1) p.2
    String.intercalate "\n\n" formatted

/-! ## Text chunking (chunking.py)

Python strings are `List Char`; Python `int` is `ℤ`; slices use Python's
index semantics (negative indices count from the end, out-of-range is
clamped).  The `while` loop of `chunk_by_characters` is modelled by the
fuel-indexed `cbcLoop`; `cbcLoop ... fuel s = none` means the loop has not
exited within `fuel` iterations, so `∀ fuel, cbcLoop ... fuel s = none`
says the source loop never terminates from state `s`.  When the advance
`chunk_size - chunk_overlap` is positive the loop runs at most
`text.length` iterations, so the fuel `text.length + 1` used by
`chunk_by_characters` is never the reason for a `none`. -/

/-- The characters stripped by Python `str.strip()` (ASCII whitespace). -/
def isPySpace (c : Char) : Bool :=
  c = ' ' || c = '\t' || c = '\n' || c = '\x0b' || c = '\x0c' || c = '\r'

/-- Python `s.strip()`. -/
def pyStrip (s : List Char) : List Char :=
  ((s.dropWhile isPySpace).reverse.dropWhile isPySpace).reverse

/-- One chunk dictionary produced by the chunkers (chunking.py lines
40-48 and 107-115). -/
structure Chunk where
  text : List Char
  chunk_index : ℕ
  start_char : ℤ
  end_char : ℤ
  char_count : ℕ
deriving DecidableEq

/-- Resolve one Python slice endpoint against a string of length `n`. -/
def pyIdx (n : ℕ) (i : ℤ) : ℕ :=
  if i < 0 then (i + n).toNat else min i.toNat n

/-- Python `s[a:b]` (step 1). -/
def pySlice (s : List Char) (a b : ℤ) : List Char :=
  (s.take (pyIdx s.length b)).drop (pyIdx s.length a)

/-- Python `s[a:]`. -/
def pySliceFrom (s : List Char) (a : ℤ) : List Char :=
  s.drop (pyIdx s.length a)

/-- The loop state of `chunk_by_characters`: the `start` cursor, the next
`chunk_index`, and the `chunks` accumulator. -/
structure CBCState where
  start : ℤ
  chunk_index : ℕ
  chunks : List Chunk
deriving DecidableEq

/-- The append step of one `chunk_by_characters` iteration (lines 33-49):
slice the window `text[start : start + chunk_size]` and append it as a
chunk — bumping `chunk_index` — unless it strips to empty. -/
def cbcAppend (text : List Char) (chunk_size : ℤ) (s : CBCState) : CBCState :=
  if pyStrip (pySlice text s.start (s.start + chunk_size)) ≠ [] then
    { start := s.start
      chunk_index := s.chunk_index + 1
      chunks := s.chunks ++
        [{ text := pySlice text s.start (s.start + chunk_size)
           chunk_index := s.chunk_index
           start_char := s.start
           end_char := s.start + chunk_size
           char_count := (pySlice text s.start (s.start + chunk_size)).length }] }
  else s

/-- The `while start < len(text)` loop of `chunk_by_characters` (lines
32-56), fuel-indexed: run the append step, advance
`start = end - chunk_overlap`, break once `start >= len(text)`. -/
def cbcLoop (text : List Char) (chunk_size chunk_overlap : ℤ) :
    ℕ → CBCState → Option CBCState
  | 0, _ => none
  | fuel + 1, s =>
    if s.start < (text.length : ℤ) then
      if (text.length : ℤ) ≤ s.start + chunk_size - chunk_overlap then
        some { cbcAppend text chunk_size s with
                start := s.start + chunk_size - chunk_overlap }
      else
        cbcLoop text chunk_size chunk_overlap fuel
          { cbcAppend text chunk_size s with
              start := s.start + chunk_size - chunk_overlap }
    else some s

/-- `chunk_by_characters` (chunking.py lines 11-63).  `some` carries the
returned chunk list; `none` means the source loop does not terminate
(the fuel bound is unreachable whenever the loop terminates, see the
section comment). -/
def chunk_by_characters (text : List Char) (chunk_size chunk_overlap : ℤ) :
    Option (List Chunk) :=
  if text = [] then some []
  else
    (cbcLoop text chunk_size chunk_overlap (text.length + 1) ⟨0, 0, []⟩).map
      fun s => s.chunks

/-- Sentence-ending characters of the split pattern `(?<=[.!?])\s+`. -/
def isSentEnd (c : Char) : Bool := c = '.' || c = '!' || c = '?'

/-- Scanner for `re.split(r'(?<=[.!?])\s+', text)`: a split happens at a
maximal whitespace run whose immediately preceding character is `.`, `!`
or `?`.  `acc` holds the current segment reversed; `skipping` is true
while the scanner is inside the matched (and therefore dropped)
whitespace run. -/
def splitSentGo : List Char → List Char → Bool → List (List Char)
  | [], acc, _ => [acc.reverse]
  | c :: rest, acc, skipping =>
    if skipping then
      if isPySpace c then splitSentGo rest acc true
      else splitSentGo rest (c :: acc) false
    else
      if isPySpace c && (match acc with | p :: _ => isSentEnd p | [] => false) then
        acc.reverse :: splitSentGo rest [] true
      else
        splitSentGo rest (c :: acc) false

/-- `re.split(r'(?<=[.!?])\s+', text)` (chunking.py lines 88-89). -/
def splitSentences (text : List Char) : List (List Char) :=
  splitSentGo text [] false

/-- The loop state of `chunk_by_sentences`: `current_chunk`,
`chunk_index`, `char_position`, and the `chunks` accumulator. -/
structure SBSState where
  current_chunk : List Char
  chunk_index : ℕ
  char_position : ℤ
  chunks : List Chunk
deriving DecidableEq

/-- One iteration of the sentence-accumulation loop of
`chunk_by_sentences` (chunking.py lines 103-132). -/
def sbsStep (chunk_size chunk_overlap : ℤ) (st : SBSState)
    (sentence : List Char) : SBSState :=
  if st.current_chunk ≠ [] ∧
      chunk_size < (st.current_chunk.length : ℤ) + sentence.length + 1 then
    { current_chunk :=
        if 0 < chunk_overlap ∧ chunk_overlap < (st.current_chunk.length : ℤ)
        then pySliceFrom st.current_chunk (-chunk_overlap) ++ ' ' :: sentence
        else sentence
      chunk_index := st.chunk_index + 1
      char_position := st.char_position + sentence.length + 1
      chunks := st.chunks ++
        [{ text := pyStrip st.current_chunk
           chunk_index := st.chunk_index
           start_char := st.char_position - st.current_chunk.length
           end_char := st.char_position
           char_count := (pyStrip st.current_chunk).length }] }
  else
    { st with
        current_chunk :=
          if st.current_chunk ≠ []
          then st.current_chunk ++ ' ' :: sentence
          else sentence
        char_position := st.char_position + sentence.length + 1 }

/-- The trailing-chunk emission after the loop (chunking.py lines
134-144). -/
def sbsFinal (st : SBSState) : List Chunk :=
  if pyStrip st.current_chunk ≠ [] then
    st.chunks ++
      [{ text := pyStrip st.current_chunk
         chunk_index := st.chunk_index
         start_char := st.char_position - st.current_chunk.length
         end_char := st.char_position
         char_count := (pyStrip st.current_chunk).length }]
  else st.chunks

/-- `chunk_by_sentences` (chunking.py lines 66-151): split into
sentences, strip and drop the blank ones, fall back to the character
strategy when none remain, otherwise fold the accumulation loop and emit
the trailing chunk. -/
def chunk_by_sentences (text : List Char) (chunk_size chunk_overlap : ℤ) :
    Option (List Chunk) :=
  if text = [] then some []
  else
    if ((splitSentences text).filter fun s => !(pyStrip s).isEmpty).map pyStrip
        = [] then
      chunk_by_characters text chunk_size chunk_overlap
    else
      some (sbsFinal
        ((((splitSentences text).filter fun s => !(pyStrip s).isEmpty).map
            pyStrip).foldl (sbsStep chunk_size chunk_overlap) ⟨[], 0, 0, []⟩))

/-- The per-chunk field discipline of `chunk_by_characters`: the window
is `[start_char, start_char + chunk_size)` with `end_char` recorded past
the end of the text when the window overruns, while `text`/`char_count`
come from the actual (clamped) slice; emitted windows always begin
strictly inside the text. -/
def ChunkOK (text : List Char) (chunk_size : ℤ) (c : Chunk) : Prop :=
  c.end_char = c.start_char + chunk_size ∧
  c.text = pySlice text c.start_char c.end_char ∧
  c.char_count = c.text.length ∧
  0 ≤ c.start_char ∧ c.start_char < (text.length : ℤ)

/-- Two consecutive chunks whose `start_char` values differ by a positive
integer multiple of the window advance `a = chunk_size - chunk_overlap`
(the multiple exceeds 1 exactly when all-whitespace windows were skipped
in between). -/
def StepRel (a : ℤ) (c1 c2 : Chunk) : Prop :=
  ∃ k : ℤ, 1 ≤ k ∧ c2.start_char - c1.start_char = k * a

/-- A throwaway concrete index oracle: one candidate at distance `0`. -/
def qfEx : Option WhereFilter → ℕ → List RawResult :=
  fun _ _ => [⟨"id0", "doc0", 0, "ds0"⟩]

/-! ## Helper lemmas on search -/

/-- Membership in `processResults` comes from a raw candidate whose
similarity passed the `min_score` gate. -/
theorem mem_processResults {raw : List RawResult} {min_score : ℚ}
    {doc : SearchDoc} (h : doc ∈ processResults raw min_score) :
    ∃ r ∈ raw, doc.score = similarity r.distance ∧ min_score ≤ doc.score := by
  simp only [processResults, List.mem_filterMap] at h
  obtain ⟨r, hr, heq⟩ := h
  by_cases hlt : similarity r.distance < min_score
  · simp [hlt] at heq
  · simp only [hlt, if_false, Option.some.injEq] at heq
    refine ⟨r, hr, ?_, ?_⟩
    · rw [← heq]
    · rw [← heq]
      exact le_of_not_lt hlt

/-- Raising the score threshold can only shrink `processResults`. -/
theorem processResults_length_mono (raw : List RawResult) {a b : ℚ}
    (hab : a ≤ b) :
    (processResults raw b).length ≤ (processResults raw a).length := by
  induction raw with
  | nil => simp [processResults]
  | cons r rest ih =>
    simp only [processResults, List.filterMap_cons] at ih ⊢
    by_cases hb : similarity r.distance < b
    · by_cases ha : similarity r.distance < a
      · simpa [hb, ha] using ih
      · simp only [hb, ha, if_true, if_false]
        exact Nat.le_succ_of_le ih
    · have ha : ¬ similarity r.distance < a := fun hlt => hb (lt_of_lt_of_le hlt hab)
      simpa [hb, ha] using ih

/-- C1: every L2 distance `d ∈ [0, 2]` delivered by the index is converted
by `VectorStore.search` to the similarity `1 − d²/2`; that similarity lies
in `[−1, 1]`, is exactly `1` at `d = 0`, and the score of every returned
document is the conversion of some raw candidate's distance. -/
theorem search_similarity_conversion (d : ℚ) (h0 : 0 ≤ d) (h2 : d ≤ 2) :
    similarity d = 1 - d ^ 2 / 2 ∧
    -1 ≤ similarity d ∧ similarity d ≤ 1 ∧
    similarity 0 = 1 ∧
    ∀ queryIndex top_k enabled_datasets min_score doc,
      doc ∈ search queryIndex top_k enabled_datasets min_score →
      ∃ r ∈ queryIndex (buildWhereFilter enabled_datasets) top_k,
        doc.score = similarity r.distance := by
  refine ⟨rfl, ?_, ?_, by norm_num [similarity], ?_⟩
  · simp only [similarity]
    nlinarith
  · simp only [similarity]
    nlinarith [sq_nonneg d]
  · intro qf k en ms doc hdoc
    simp only [search] at hdoc
    by_cases he : en = some []
    · simp [he] at hdoc
    · simp only [he, if_false] at hdoc
      obtain ⟨r, hr, hscore, _⟩ := mem_processResults hdoc
      exact ⟨r, hr, hscore⟩

/-- Witness for C1 at the concrete distance `d = 1`. -/
theorem search_similarity_conversion_witness :
    0 ≤ (1 : ℚ) ∧ (1 : ℚ) ≤ 2 ∧
    (similarity 1 = 1 - 1 ^ 2 / 2 ∧
      -1 ≤ similarity 1 ∧ similarity 1 ≤ 1 ∧
      similarity 0 = 1 ∧
      ∀ queryIndex top_k enabled_datasets min_score doc,
        doc ∈ search queryIndex top_k enabled_datasets min_score →
        ∃ r ∈ queryIndex (buildWhereFilter enabled_datasets) top_k,
          doc.score = similarity r.distance) :=
  ⟨zero_le_one, one_le_two, search_similarity_conversion 1 zero_le_one one_le_two⟩

/-- C4: no document returned by `VectorStore.search` scores strictly below
`min_score`, and raising `min_score` (all other arguments fixed) never
increases the number of returned results. -/
theorem search_min_score_filter :
    (∀ queryIndex top_k enabled_datasets min_score doc,
        doc ∈ search queryIndex top_k enabled_datasets min_score →
        min_score ≤ doc.score) ∧
    ∀ queryIndex top_k enabled_datasets min_score min_score',
      min_score ≤ min_score' →
      (search queryIndex top_k enabled_datasets min_score').length ≤
        (search queryIndex top_k enabled_datasets min_score).length := by
  constructor
  · intro qf k en ms doc hdoc
    simp only [search] at hdoc
    by_cases he : en = some []
    · simp [he] at hdoc
    · simp only [he, if_false] at hdoc
      obtain ⟨r, _, _, hge⟩ := mem_processResults hdoc
      exact hge
  · intro qf k en ms ms' hle
    simp only [search]
    by_cases he : en = some []
    · simp [he]
    · simp only [he, if_false]
      exact processResults_length_mono _ hle

/-- Witness for C4: thresholds `0 ≤ 1` on a concrete one-candidate index. -/
theorem search_min_score_filter_witness :
    (0 : ℚ) ≤ 1 ∧
    (search qfEx 3 none 1).length ≤ (search qfEx 3 none 0).length :=
  ⟨zero_le_one, search_min_score_filter.2 qfEx 3 none 0 1 zero_le_one⟩

/-- C5: an explicitly empty dataset scope returns `[]` for every index
oracle (so the index is never consulted), while a `none` scope queries the
index with no filter; the two behaviours differ on a concrete index. -/
theorem search_empty_scope_vs_no_scope :
    (∀ queryIndex top_k min_score,
        search queryIndex top_k (some []) min_score = []) ∧
    (∀ queryIndex top_k min_score,
        search queryIndex top_k none min_score
          = processResults (queryIndex none top_k) min_score) ∧
    search qfEx 5 none 0 ≠ search qfEx 5 (some []) 0 := by
  refine ⟨fun qf k ms => rfl, fun qf k ms => rfl, ?_⟩
  have h1 : search qfEx 5 (some []) 0 = [] := rfl
  have h2 : search qfEx 5 none 0 = [⟨"doc0", 1, "id0"⟩] := by
    show processResults (qfEx (buildWhereFilter none) 5) 0 = _
    simp only [processResults, qfEx, List.filterMap_cons, List.filterMap_nil,
      similarity]
    norm_num
  rw [h1, h2]
  simp

/-- C8: each expected keyword is checked case-insensitively as a substring
of the generated answer; coverage is `|found| / |expected|`, `0` for an
empty keyword list; the scenario answer `"the quick brown fox"` with
keywords `["quick", "slow"]` finds `["quick"]` with coverage `1/2`. -/
theorem evaluate_batch_keyword_coverage :
    keywordsFound "the quick brown fox" ["quick", "slow"] = ["quick"] ∧
    keyword_coverage "the quick brown fox" ["quick", "slow"] = 1 / 2 ∧
    (∀ answer, keyword_coverage answer [] = 0) ∧
    ∀ answer expected_keywords, expected_keywords ≠ [] →
      keyword_coverage answer expected_keywords
        = (keywordsFound answer expected_keywords).length
            / expected_keywords.length := by
  have hfound : keywordsFound "the quick brown fox" ["quick", "slow"]
      = ["quick"] := by decide
  refine ⟨hfound, ?_, fun answer => by simp [keyword_coverage], ?_⟩
  · simp only [keyword_coverage, hfound, List.isEmpty_cons, Bool.false_eq_true,
      if_false, List.length_cons, List.length_nil]
    norm_num
  · intro answer kws hne
    have hni : kws.isEmpty = false := by
      simpa [List.isEmpty_iff] using hne
    simp only [keyword_coverage, hni, Bool.false_eq_true, if_false]

/-- Witness for C8's general coverage formula at a concrete nonempty
keyword list. -/
theorem evaluate_batch_keyword_coverage_witness :
    keyword_coverage "abc" ["b"]
      = (keywordsFound "abc" ["b"]).length / ([("b" : String)]).length :=
  evaluate_batch_keyword_coverage.2.2.2 "abc" ["b"] (by decide)

/-- C9: prompt context is the rank-labelled blocks
`"[Source {rank}: {source_title} (relevance: {score:.2f})]\n{text}"`
joined by blank lines, ranks starting at 1, with the literal sentinel
`"No relevant context found."` for zero retrieved chunks; checked on a
concrete two-chunk list. -/
theorem format_context_characterization :
    format_context [] = "No relevant context found." ∧
    (∀ chunks : List RetChunk, chunks ≠ [] →
        format_context chunks
          = String.intercalate "\n\n" (chunks.enum.map fun p =>
              "[Source " ++ toString (p.1 + 1) ++ ": "
                ++ p.2.source_title.getD "Unknown"
                ++ " (relevance: " ++ format2 (p.2.score.getD 0) ++ ")]\n"
                ++ p.2.text)) ∧
    format_context [⟨"alpha", some "Doc A", some (1 / 2)⟩, ⟨"beta", none, none⟩]
      = "[Source 1: Doc A (relevance: 0.50)]\nalpha\n\n"
          ++ "[Source 2: Unknown (relevance: 0.00)]\nbeta" := by
  have hhalf : format2 (1 / 2) = "0.50" := by
    have hr : round ((1 : ℚ) / 2 * 100) = 50 := by norm_num [round_eq]
    simp only [format2, hr]
    decide
  have hzero : format2 0 = "0.00" := by
    have hr : round ((0 : ℚ) * 100) = 0 := by norm_num
    simp only [format2, hr]
    decide
  refine ⟨rfl, ?_, ?_⟩
  · intro chunks hne
    have hni : chunks.isEmpty = false := by
      simpa [List.isEmpty_iff] using hne
    simp only [format_context, hni, Bool.false_eq_true, if_false]
    rfl
  · have e1 : sourceBlock 1 ⟨"alpha", some "Doc A", some (1 / 2)⟩
        = "[Source 1: Doc A (relevance: 0.50)]\nalpha" := by
      simp only [sourceBlock, Option.getD_some, hhalf]
      decide
    have e2 : sourceBlock 2 ⟨"beta", none, none⟩
        = "[Source 2: Unknown (relevance: 0.00)]\nbeta" := by
      simp only [sourceBlock, Option.getD_none, hzero]
      decide
    calc format_context
          [⟨"alpha", some "Doc A", some (1 / 2)⟩, ⟨"beta", none, none⟩]
        = String.intercalate "\n\n"
            [sourceBlock 1 ⟨"alpha", some "Doc A", some (1 / 2)⟩,
              sourceBlock 2 ⟨"beta", none, none⟩] := rfl
      _ = "[Source 1: Doc A (relevance: 0.50)]\nalpha\n\n"
            ++ "[Source 2: Unknown (relevance: 0.00)]\nbeta" := by
          rw [e1, e2]
          decide

/-- Witness for C9's nonempty-case characterization at a one-chunk list. -/
theorem format_context_characterization_witness :
    format_context [⟨"t", none, none⟩]
      = String.intercalate "\n\n"
          (([⟨"t", none, none⟩] : List RetChunk).enum.map fun p =>
            "[Source " ++ toString (p.1 + 1) ++ ": "
              ++ p.2.source_title.getD "Unknown"
              ++ " (relevance: " ++ format2 (p.2.score.getD 0) ++ ")]\n"
              ++ p.2.text) :=
  format_context_characterization.2.1 [⟨"t", none, none⟩] (by simp)

/-! ## Chunking lemmas -/

/-- When the window advance `chunk_size - chunk_overlap` is not positive
and the text is nonempty, the `chunk_by_characters` loop never exits: the
cursor never reaches the end of the text, so no amount of fuel produces a
result. -/
theorem cbcLoop_none_of_nonpos (text : List Char) (chunk_size chunk_overlap : ℤ)
    (ha : chunk_size - chunk_overlap ≤ 0) (hlen : 0 < text.length) :
    ∀ (fuel : ℕ) (s : CBCState), s.start ≤ 0 →
      cbcLoop text chunk_size chunk_overlap fuel s = none := by
  intro fuel
  induction fuel with
  | zero => intro s _; rfl
  | succ n ih =>
    intro s hs
    have h1 : s.start < (text.length : ℤ) := by omega
    have h2 : ¬ (text.length : ℤ) ≤ s.start + chunk_size - chunk_overlap := by
      omega
    simp only [cbcLoop]
    rw [if_pos h1, if_neg h2]
    apply ih
    show s.start + chunk_size - chunk_overlap ≤ 0
    omega

/-- C3 (refuted): with `chunk_overlap = chunk_size` the cursor of
`chunk_by_characters` does not advance, the `start >= len(text)` guard
never fires, and the loop runs forever — on `"ab"` with
`chunk_size = 1, chunk_overlap = 1` no fuel makes the loop exit. -/
theorem chunk_by_characters_loops_forever :
    (∀ (fuel : ℕ) (s : CBCState), s.start = 0 →
        cbcLoop "ab".data 1 1 fuel s = none) ∧
    chunk_by_characters "ab".data 1 1 = none := by
  constructor
  · intro fuel s hs
    exact cbcLoop_none_of_nonpos "ab".data 1 1 (by norm_num) (by decide)
      fuel s (le_of_eq hs)
  · decide

/-- Witness for the non-termination theorem at concrete fuel and state. -/
theorem chunk_by_characters_loops_forever_witness :
    cbcLoop "ab".data 1 1 5 ⟨0, 0, []⟩ = none :=
  chunk_by_characters_loops_forever.1 5 ⟨0, 0, []⟩ rfl

/-- C2 counterexample: on `"abcdefghij"` with `chunk_size = 4`,
`chunk_overlap = 1` the result is not the three chunks the claim lists
(a fourth chunk `"j"` is emitted from the window starting at 9). -/
theorem chunk_by_characters_scenario_cex :
    chunk_by_characters "abcdefghij".data 4 1
      ≠ some [⟨"abcd".data, 0, 0, 4, 4⟩, ⟨"defg".data, 1, 3, 7, 4⟩,
              ⟨"ghij".data, 2, 6, 10, 4⟩] := by
  decide

/-- C2 amended: the run returns exactly four chunks — `"abcd"(0-4)`,
`"defg"(3-7)`, `"ghij"(6-10)` and `"j"(9-13)`, indices 0,1,2,3. -/
theorem chunk_by_characters_scenario :
    chunk_by_characters "abcdefghij".data 4 1
      = some [⟨"abcd".data, 0, 0, 4, 4⟩, ⟨"defg".data, 1, 3, 7, 4⟩,
              ⟨"ghij".data, 2, 6, 10, 4⟩, ⟨"j".data, 3, 9, 13, 1⟩] := by
  decide

/-- The append step keeps `chunk_index` bookkeeping consistent: the
accumulated indices are exactly `0, ..., chunk_index - 1`. -/
theorem cbcAppend_index (text : List Char) (chunk_size : ℤ) (s : CBCState)
    (h : s.chunks.map Chunk.chunk_index = List.range s.chunk_index) :
    (cbcAppend text chunk_size s).chunks.map Chunk.chunk_index
      = List.range (cbcAppend text chunk_size s).chunk_index := by
  unfold cbcAppend
  split_ifs with hne
  · simp [h, List.range_succ]
  · exact h

/-- The character-strategy loop keeps the index bookkeeping consistent. -/
theorem cbcLoop_index (text : List Char) (chunk_size chunk_overlap : ℤ) :
    ∀ (fuel : ℕ) (s s' : CBCState),
      s.chunks.map Chunk.chunk_index = List.range s.chunk_index →
      cbcLoop text chunk_size chunk_overlap fuel s = some s' →
      s'.chunks.map Chunk.chunk_index = List.range s'.chunk_index := by
  intro fuel
  induction fuel with
  | zero => intro s s' _ hc; exact absurd hc (by simp [cbcLoop])
  | succ n ih =>
    intro s s' h hc
    simp only [cbcLoop] at hc
    split_ifs at hc with h1 h2
    · obtain rfl := Option.some_inj.mp hc
      exact cbcAppend_index text chunk_size s h
    · refine ih _ s' ?_ hc
      show (cbcAppend text chunk_size s).chunks.map Chunk.chunk_index
        = List.range (cbcAppend text chunk_size s).chunk_index
      exact cbcAppend_index text chunk_size s h
    · obtain rfl := Option.some_inj.mp hc
      exact h

/-- One sentence-accumulation step keeps the index bookkeeping
consistent. -/
theorem sbsStep_index (chunk_size chunk_overlap : ℤ) (st : SBSState)
    (sentence : List Char)
    (h : st.chunks.map Chunk.chunk_index = List.range st.chunk_index) :
    (sbsStep chunk_size chunk_overlap st sentence).chunks.map Chunk.chunk_index
      = List.range (sbsStep chunk_size chunk_overlap st sentence).chunk_index := by
  unfold sbsStep
  split_ifs <;> simp_all [List.range_succ]

/-- Folding the sentence-accumulation loop keeps the index bookkeeping
consistent. -/
theorem sbsFold_index (chunk_size chunk_overlap : ℤ) :
    ∀ (sentences : List (List Char)) (st : SBSState),
      st.chunks.map Chunk.chunk_index = List.range st.chunk_index →
      (sentences.foldl (sbsStep chunk_size chunk_overlap) st).chunks.map
          Chunk.chunk_index
        = List.range
            (sentences.foldl (sbsStep chunk_size chunk_overlap) st).chunk_index
  | [], _, h => h
  | sent :: rest, st, h =>
    sbsFold_index chunk_size chunk_overlap rest _
      (sbsStep_index chunk_size chunk_overlap st sent h)

/-- Emitting the trailing sentence chunk yields indices `0, ..., n-1`. -/
theorem sbsFinal_index (st : SBSState)
    (h : st.chunks.map Chunk.chunk_index = List.range st.chunk_index) :
    (sbsFinal st).map Chunk.chunk_index = List.range (sbsFinal st).length := by
  have hlen : st.chunks.length = st.chunk_index := by
    simpa using congrArg List.length h
  unfold sbsFinal
  split_ifs with hne
  · simp [h, hlen, List.range_succ]
  · rw [hlen]
    exact h

/-- The chunk list returned by `chunk_by_characters` carries indices
`0, ..., n-1` in order. -/
theorem chunk_by_characters_index (text : List Char)
    (chunk_size chunk_overlap : ℤ) (cs : List Chunk)
    (h : chunk_by_characters text chunk_size chunk_overlap = some cs) :
    cs.map Chunk.chunk_index = List.range cs.length := by
  unfold chunk_by_characters at h
  split_ifs at h with ht
  · obtain rfl := Option.some_inj.mp h
    simp
  · obtain ⟨s', hs', rfl⟩ := Option.map_eq_some'.mp h
    have hidx := cbcLoop_index text chunk_size chunk_overlap _ _ s' (by simp) hs'
    have hlen : s'.chunks.length = s'.chunk_index := by
      simpa using congrArg List.length hidx
    rw [hlen]
    exact hidx

/-- The chunk list returned by `chunk_by_sentences` carries indices
`0, ..., n-1` in order. -/
theorem chunk_by_sentences_index (text : List Char)
    (chunk_size chunk_overlap : ℤ) (cs : List Chunk)
    (h : chunk_by_sentences text chunk_size chunk_overlap = some cs) :
    cs.map Chunk.chunk_index = List.range cs.length := by
  unfold chunk_by_sentences at h
  split_ifs at h with ht hs
  · obtain rfl := Option.some_inj.mp h
    simp
  · exact chunk_by_characters_index text chunk_size chunk_overlap cs h
  · obtain rfl := Option.some_inj.mp h
    exact sbsFinal_index _ (sbsFold_index chunk_size chunk_overlap _ _ (by simp))

/-- C6: for both strategies, the returned `chunk_index` values, in list
order, are exactly `0, 1, ..., n − 1`: contiguous, strictly increasing,
starting at 0, with no gaps. -/
theorem chunk_index_contiguous :
    (∀ (text : List Char) (chunk_size chunk_overlap : ℤ) cs,
        chunk_by_characters text chunk_size chunk_overlap = some cs →
        cs.map Chunk.chunk_index = List.range cs.length) ∧
    ∀ (text : List Char) (chunk_size chunk_overlap : ℤ) cs,
      chunk_by_sentences text chunk_size chunk_overlap = some cs →
      cs.map Chunk.chunk_index = List.range cs.length :=
  ⟨fun text sz ov cs h => chunk_by_characters_index text sz ov cs h,
   fun text sz ov cs h => chunk_by_sentences_index text sz ov cs h⟩

/-- Witness for C6 on a concrete run of each strategy. -/
theorem chunk_index_contiguous_witness :
    ([(⟨"abcd".data, 0, 0, 4, 4⟩ : Chunk), ⟨"defg".data, 1, 3, 7, 4⟩,
        ⟨"ghij".data, 2, 6, 10, 4⟩, ⟨"j".data, 3, 9, 13, 1⟩].map Chunk.chunk_index
      = List.range ([(⟨"abcd".data, 0, 0, 4, 4⟩ : Chunk), ⟨"defg".data, 1, 3, 7, 4⟩,
          ⟨"ghij".data, 2, 6, 10, 4⟩, ⟨"j".data, 3, 9, 13, 1⟩] : List Chunk).length) ∧
    ([(⟨"Hi there.".data, 0, 1, 10, 9⟩ : Chunk), ⟨"All good!".data, 1, 11, 20, 9⟩,
        ⟨"Yes? End.".data, 2, 21, 30, 9⟩].map Chunk.chunk_index
      = List.range ([(⟨"Hi there.".data, 0, 1, 10, 9⟩ : Chunk),
          ⟨"All good!".data, 1, 11, 20, 9⟩,
          ⟨"Yes? End.".data, 2, 21, 30, 9⟩] : List Chunk).length) :=
  ⟨chunk_index_contiguous.1 "abcdefghij".data 4 1 _ (by decide),
   chunk_index_contiguous.2 "Hi there. All good! Yes? End.".data 12 0 _ (by decide)⟩

/-- The append step emits only chunks satisfying the field discipline
`ChunkOK`, provided the cursor is inside the text. -/
theorem cbcAppend_chunkOK (text : List Char) (chunk_size : ℤ) (s : CBCState)
    (hs0 : 0 ≤ s.start) (hslen : s.start < (text.length : ℤ))
    (h : ∀ c ∈ s.chunks, ChunkOK text chunk_size c) :
    ∀ c ∈ (cbcAppend text chunk_size s).chunks, ChunkOK text chunk_size c := by
  unfold cbcAppend
  split_ifs with hne
  · intro c hc
    simp only [List.mem_append, List.mem_singleton] at hc
    rcases hc with hc | rfl
    · exact h c hc
    · exact ⟨rfl, rfl, rfl, hs0, hslen⟩
  · exact h

/-- All chunks accumulated by a successful run of the character-strategy
loop satisfy `ChunkOK`, provided the advance is positive. -/
theorem cbcLoop_chunkOK (text : List Char) (chunk_size chunk_overlap : ℤ)
    (ha : 0 < chunk_size - chunk_overlap) :
    ∀ (fuel : ℕ) (s s' : CBCState), 0 ≤ s.start →
      (∀ c ∈ s.chunks, ChunkOK text chunk_size c) →
      cbcLoop text chunk_size chunk_overlap fuel s = some s' →
      ∀ c ∈ s'.chunks, ChunkOK text chunk_size c := by
  intro fuel
  induction fuel with
  | zero => intro s s' _ _ hc; exact absurd hc (by simp [cbcLoop])
  | succ n ih =>
    intro s s' hs0 hok hc
    simp only [cbcLoop] at hc
    split_ifs at hc with h1 h2
    · obtain rfl := Option.some_inj.mp hc
      exact cbcAppend_chunkOK text chunk_size s hs0 h1 hok
    · refine ih _ s' ?_ ?_ hc
      · show 0 ≤ s.start + chunk_size - chunk_overlap
        omega
      · show ∀ c ∈ (cbcAppend text chunk_size s).chunks, ChunkOK text chunk_size c
        exact cbcAppend_chunkOK text chunk_size s hs0 h1 hok
    · obtain rfl := Option.some_inj.mp hc
      exact hok

/-- Length of a Python slice whose right endpoint overruns the text. -/
theorem pySlice_length_of_overrun (s : List Char) (a b : ℤ)
    (ha0 : 0 ≤ a) (halen : a < (s.length : ℤ)) (hb : (s.length : ℤ) < b) :
    (pySlice s a b).length = s.length - a.toNat := by
  unfold pySlice pyIdx
  have hb0 : ¬ b < 0 := by omega
  have ha0' : ¬ a < 0 := by omega
  rw [if_neg hb0, if_neg ha0']
  have h1 : min b.toNat s.length = s.length := by omega
  have h2 : min a.toNat s.length = a.toNat := by omega
  rw [h1, h2, List.take_length, List.length_drop]

/-- Every chunk returned by `chunk_by_characters` satisfies the field
discipline `ChunkOK` (no positivity hypotheses needed: runs with a
non-positive advance never return). -/
theorem chunk_by_characters_chunkOK (text : List Char)
    (chunk_size chunk_overlap : ℤ) (cs : List Chunk)
    (h : chunk_by_characters text chunk_size chunk_overlap = some cs) :
    ∀ c ∈ cs, ChunkOK text chunk_size c := by
  unfold chunk_by_characters at h
  split_ifs at h with ht
  · obtain rfl := Option.some_inj.mp h
    intro c hc
    exact absurd hc (List.not_mem_nil c)
  · obtain ⟨s', hs', rfl⟩ := Option.map_eq_some'.mp h
    rcases le_or_lt (chunk_size - chunk_overlap) 0 with hle | hpos
    · have hlen : 0 < text.length := List.length_pos.mpr ht
      have := cbcLoop_none_of_nonpos text chunk_size chunk_overlap hle hlen
        (text.length + 1) ⟨0, 0, []⟩ le_rfl
      rw [this] at hs'
      exact absurd hs' (by simp)
    · exact cbcLoop_chunkOK text chunk_size chunk_overlap hpos _ _ s'
        le_rfl (by simp) hs'

/-- C10: every chunk emitted by `chunk_by_characters` records
`end_char = start_char + chunk_size` — even past the end of the text —
while `text` and `char_count` come from the actual clamped slice, so a
chunk whose window overruns the text has `end_char > len(text)` and
`char_count < end_char - start_char`. -/
theorem chunk_window_fields (text : List Char) (chunk_size chunk_overlap : ℤ)
    (cs : List Chunk) (c : Chunk)
    (h : chunk_by_characters text chunk_size chunk_overlap = some cs)
    (hc : c ∈ cs) :
    c.end_char = c.start_char + chunk_size ∧
    c.text = pySlice text c.start_char c.end_char ∧
    c.char_count = c.text.length ∧
    ((text.length : ℤ) < c.end_char →
      (c.char_count : ℤ) < c.end_char - c.start_char) := by
  obtain ⟨hend, htext, hcount, hs0, hslen⟩ :=
    chunk_by_characters_chunkOK text chunk_size chunk_overlap cs h c hc
  refine ⟨hend, htext, hcount, fun hover => ?_⟩
  have hlen : c.text.length = text.length - c.start_char.toNat := by
    rw [htext]
    exact pySlice_length_of_overrun text c.start_char c.end_char hs0 hslen hover
  rw [hcount, hlen]
  omega

/-- Witness for C10 at the overrunning final chunk `"j"(9-13)` of the
concrete run on `"abcdefghij"` with `chunk_size = 4`. -/
theorem chunk_window_fields_witness :
    (⟨"j".data, 3, 9, 13, 1⟩ : Chunk).end_char
        = (⟨"j".data, 3, 9, 13, 1⟩ : Chunk).start_char + 4 ∧
    (⟨"j".data, 3, 9, 13, 1⟩ : Chunk).text
        = pySlice "abcdefghij".data (⟨"j".data, 3, 9, 13, 1⟩ : Chunk).start_char
            (⟨"j".data, 3, 9, 13, 1⟩ : Chunk).end_char ∧
    (⟨"j".data, 3, 9, 13, 1⟩ : Chunk).char_count
        = (⟨"j".data, 3, 9, 13, 1⟩ : Chunk).text.length ∧
    ((("abcdefghij".data : List Char).length : ℤ)
          < (⟨"j".data, 3, 9, 13, 1⟩ : Chunk).end_char →
      ((⟨"j".data, 3, 9, 13, 1⟩ : Chunk).char_count : ℤ)
        < (⟨"j".data, 3, 9, 13, 1⟩ : Chunk).end_char
            - (⟨"j".data, 3, 9, 13, 1⟩ : Chunk).start_char) :=
  chunk_window_fields "abcdefghij".data 4 1
    [⟨"abcd".data, 0, 0, 4, 4⟩, ⟨"defg".data, 1, 3, 7, 4⟩,
      ⟨"ghij".data, 2, 6, 10, 4⟩, ⟨"j".data, 3, 9, 13, 1⟩]
    ⟨"j".data, 3, 9, 13, 1⟩ (by decide) (by decide)

/-- One iteration of the character-strategy loop preserves the
`start_char` chain: previously accumulated chunks stay `StepRel`-chained,
and the advanced cursor stays a positive multiple of the advance ahead of
the last accumulated chunk. -/
theorem cbcStep_chain (text : List Char) (chunk_size chunk_overlap : ℤ)
    (s : CBCState)
    (h1 : List.Chain' (StepRel (chunk_size - chunk_overlap)) s.chunks)
    (h2 : ∀ c ∈ s.chunks.getLast?, ∃ m : ℤ, 1 ≤ m ∧
        s.start - c.start_char = m * (chunk_size - chunk_overlap)) :
    List.Chain' (StepRel (chunk_size - chunk_overlap))
        (cbcAppend text chunk_size s).chunks ∧
    ∀ c ∈ (cbcAppend text chunk_size s).chunks.getLast?, ∃ m : ℤ, 1 ≤ m ∧
      (s.start + chunk_size - chunk_overlap) - c.start_char
        = m * (chunk_size - chunk_overlap) := by
  unfold cbcAppend
  split_ifs with hne
  · constructor
    · rw [List.chain'_append]
      refine ⟨h1, List.chain'_singleton _, ?_⟩
      intro x hx y hy
      simp only [List.head?_cons, Option.mem_def, Option.some_inj] at hy
      obtain ⟨m, hm1, hm2⟩ := h2 x hx
      exact ⟨m, hm1, by rw [← hy]; simpa using hm2⟩
    · intro c hc
      rw [List.getLast?_concat] at hc
      simp only [Option.mem_def, Option.some_inj] at hc
      refine ⟨1, le_refl 1, ?_⟩
      rw [← hc]
      show s.start + chunk_size - chunk_overlap - s.start
        = 1 * (chunk_size - chunk_overlap)
      ring
  · refine ⟨h1, fun c hc => ?_⟩
    obtain ⟨m, hm1, hm2⟩ := h2 c hc
    exact ⟨m + 1, by omega, by linear_combination hm2⟩

/-- A successful run of the character-strategy loop returns a
`StepRel`-chained chunk list, given chained accumulated chunks and the
cursor-link invariant. -/
theorem cbcLoop_chain (text : List Char) (chunk_size chunk_overlap : ℤ) :
    ∀ (fuel : ℕ) (s s' : CBCState),
      List.Chain' (StepRel (chunk_size - chunk_overlap)) s.chunks →
      (∀ c ∈ s.chunks.getLast?, ∃ m : ℤ, 1 ≤ m ∧
          s.start - c.start_char = m * (chunk_size - chunk_overlap)) →
      cbcLoop text chunk_size chunk_overlap fuel s = some s' →
      List.Chain' (StepRel (chunk_size - chunk_overlap)) s'.chunks := by
  intro fuel
  induction fuel with
  | zero => intro s s' _ _ hc; exact absurd hc (by simp [cbcLoop])
  | succ n ih =>
    intro s s' h1 h2 hc
    simp only [cbcLoop] at hc
    split_ifs at hc with hg1 hg2
    · obtain rfl := Option.some_inj.mp hc
      exact (cbcStep_chain text chunk_size chunk_overlap s h1 h2).1
    · refine ih { cbcAppend text chunk_size s with
          start := s.start + chunk_size - chunk_overlap } s' ?_ ?_ hc
      · show List.Chain' (StepRel (chunk_size - chunk_overlap))
          (cbcAppend text chunk_size s).chunks
        exact (cbcStep_chain text chunk_size chunk_overlap s h1 h2).1
      · show ∀ c ∈ (cbcAppend text chunk_size s).chunks.getLast?, ∃ m : ℤ,
            1 ≤ m ∧ (s.start + chunk_size - chunk_overlap) - c.start_char
              = m * (chunk_size - chunk_overlap)
        exact (cbcStep_chain text chunk_size chunk_overlap s h1 h2).2
    · obtain rfl := Option.some_inj.mp hc
      exact h1

/-- C7 counterexample: on `"ab  cd"` with `chunk_size = 2`,
`chunk_overlap = 0` the all-whitespace middle window is skipped, so the
two emitted chunks' `start_char` values differ by 4, not by
`chunk_size − chunk_overlap = 2`. -/
theorem consecutive_start_chars_cex :
    chunk_by_characters "ab  cd".data 2 0
      = some [⟨"ab".data, 0, 0, 2, 2⟩, ⟨"cd".data, 1, 4, 6, 2⟩] ∧
    ¬ List.Chain' (fun c1 c2 => c2.start_char - c1.start_char = 2 - 0)
        [(⟨"ab".data, 0, 0, 2, 2⟩ : Chunk), ⟨"cd".data, 1, 4, 6, 2⟩] := by
  refine ⟨by decide, fun hch => ?_⟩
  have h4 : ((⟨"cd".data, 1, 4, 6, 2⟩ : Chunk).start_char
      - (⟨"ab".data, 0, 0, 2, 2⟩ : Chunk).start_char) = 2 - 0 :=
    (List.chain'_cons.mp hch).1
  norm_num at h4

/-- C7 amended: for the character strategy with
`chunk_overlap < chunk_size`, consecutive chunks' `start_char` values
increase by a positive integer multiple of
`chunk_size − chunk_overlap` (the multiple is 1 unless intervening
all-whitespace windows were skipped). -/
theorem consecutive_start_chars (text : List Char)
    (chunk_size chunk_overlap : ℤ) (ha : chunk_overlap < chunk_size)
    (cs : List Chunk)
    (h : chunk_by_characters text chunk_size chunk_overlap = some cs) :
    List.Chain' (StepRel (chunk_size - chunk_overlap)) cs := by
  unfold chunk_by_characters at h
  split_ifs at h with ht
  · obtain rfl := Option.some_inj.mp h
    exact List.chain'_nil
  · obtain ⟨s', hs', rfl⟩ := Option.map_eq_some'.mp h
    exact cbcLoop_chain text chunk_size chunk_overlap _ _ s'
      (by simp) (by simp) hs'

/-- Witness for C7 (amended) on the concrete `"abcdefghij"` run. -/
theorem consecutive_start_chars_witness :
    (1 : ℤ) < 4 ∧
    List.Chain' (StepRel (4 - 1))
      [(⟨"abcd".data, 0, 0, 4, 4⟩ : Chunk), ⟨"defg".data, 1, 3, 7, 4⟩,
        ⟨"ghij".data, 2, 6, 10, 4⟩, ⟨"j".data, 3, 9, 13, 1⟩] :=
  ⟨by decide, consecutive_start_chars "abcdefghij".data 4 1 (by decide)
    [⟨"abcd".data, 0, 0, 4, 4⟩, ⟨"defg".data, 1, 3, 7, 4⟩,
      ⟨"ghij".data, 2, 6, 10, 4⟩, ⟨"j".data, 3, 9, 13, 1⟩] (by decide)⟩

end RAG
